import Mathlib

/-!
Verification of the Prophecy budgeting engine (bradenmacdonald/prophecy)
against its natural-language specification.

The development shallowly embeds the engine's core in Lean 4:

* `PDate` values are the integer day values (days since 2000-01-01) used by
  `pdate.ts`; the `year`/`month`/`day` getters are translated from their
  arithmetic in `pdate.ts`.
* `CategoryRule.countOccurrencesBetween` is translated from `category.js`.
* The `Budget` aggregate, its structural mutators and its balance
  derivations are translated from `budget.ts` (`src/unnamed/part_011`).
* The command reducer and inverter are translated from
  `redux/prophecy_redux.js`.

Modelling conventions, used throughout:

* Immutable.js `OrderedMap`s are modelled as Lean `List`s of records in
  iteration order, keyed by their `id` field; `map.set` replaces the value
  in place for an existing key and appends for a new key, `map.delete`
  filters, exactly as Immutable.js does.
* JS `number` amounts are modelled as `Int`: the engine stores amounts as
  integers in minor currency units (see the spec, section 3).
* JS `null`/`undefined` are modelled with `Option`; an absent object key
  (`'k' in obj` false) is `none` at an outer `Option` layer.
* Functions that can throw (`assert`, invariant checks) return
  `Except JsError` values.
* `Math.floor (a / b)` for an integer `a` and positive integer `b` is
  floor division, i.e. `Int`'s `/` (`Int.ediv`, which rounds toward
  negative infinity for positive divisors).  The engine only ever divides
  by `repeatN` (`> 0` by the record's documented invariant) or constants.
* `metadata` fields (opaque user-defined maps, never interpreted by the
  engine) are not modelled.
-/

namespace Prophecy

/-! ### PDate (`pdate.ts`)

A `PDate` is its integer day value: days since 2000-01-01, in range
`0..365615` (the constructor of `pdate.ts` rejects anything else).
-/

/-- Sentinel used by `Budget.transactionSorter` for null dates; strictly
greater than every legal `PDate` value (max is 365615 = 3000-12-31). -/
def nullDateSortKey : Nat := 999999

/-- Leap-year test from `pdate.ts` (`PDate.isLeapYear`).  The source accepts
either an absolute year (2016) or a year relative to 2000 (16); the two give
the same answer because 2000 is divisible by 400. -/
def PDate.isLeapYear (year : Nat) : Bool :=
  year % 4 == 0 && (year % 100 != 0 || year % 400 == 0)

/-- The `MONTH_SUMS_NORMAL_YEAR` / `MONTH_SUMS_LEAP_YEAR` tables of
`pdate.ts`: days between Jan 1 and the first day of month `m` (0-based).
Months past December never arise for legal inputs; the catch-all 366 keeps
the function total and monotone. -/
def monthSum (leap : Bool) : Nat → Nat
  | 0 => 0
  | 1 => 31
  | 2 => if leap then 60 else 59
  | 3 => if leap then 91 else 90
  | 4 => if leap then 121 else 120
  | 5 => if leap then 152 else 151
  | 6 => if leap then 182 else 181
  | 7 => if leap then 213 else 212
  | 8 => if leap then 244 else 243
  | 9 => if leap then 274 else 273
  | 10 => if leap then 305 else 304
  | 11 => if leap then 335 else 334
  | _ => 366

/-- Days between 2000-01-01 and Jan 1 of the year `2000 + nyear`: the
`(nyear*365) + ((nyear+3)/4|0) - ((nyear+99)/100|0) + ((nyear+399)/400|0)`
expression of `triplet_to_days_value` in `pdate.ts`. -/
def daysToYearStart (nyear : Nat) : Nat :=
  nyear * 365 + (nyear + 3) / 4 - (nyear + 99) / 100 + (nyear + 399) / 400

/-- `triplet_to_days_value` of `pdate.ts`: day value of `(year, month, day)`
with a 0-based month and 1-based day.  (The source's range check on `day`
is omitted: the embedding only applies it to legal triples, and the `day`
getter always calls it with `day = 1`.) -/
def triplet_to_days_value (year month day : Nat) : Nat :=
  daysToYearStart (year - 2000) + monthSum (PDate.isLeapYear year) month + day - 1

/-- The `year` getter of `pdate.ts`.  The source computes
`(2000 + (value + centuries - (centuries/4|0)) / 365.25) | 0` with
`centuries = value/36525 | 0` in floating point; for `x ≤ 4·10^5` the double
rounding error of `x / 365.25 = 4x / 1461` is far below `1/1461`, the least
distance of a non-integer value `4x/1461` from an integer, so the truncated
float equals the integer floor `(4x) / 1461` computed here. -/
def PDate.year (value : Nat) : Nat :=
  2000 + 4 * (value + value / 36525 - value / 36525 / 4) / 1461

/-- Month (0-11) a day of the year falls in.  The `NORMAL_YEAR` / `LEAP_YEAR`
strings of `pdate.ts` tabulate exactly this function for `doy < 365/366`
(their own comment: "These maps convert from day of the year ... to month");
the if-chain below reads the same answer off the month-sums table that the
strings were precomputed from. -/
def monthFromDayOfYear (leap : Bool) (doy : Nat) : Nat :=
  if doy < monthSum leap 1 then 0
  else if doy < monthSum leap 2 then 1
  else if doy < monthSum leap 3 then 2
  else if doy < monthSum leap 4 then 3
  else if doy < monthSum leap 5 then 4
  else if doy < monthSum leap 6 then 5
  else if doy < monthSum leap 7 then 6
  else if doy < monthSum leap 8 then 7
  else if doy < monthSum leap 9 then 8
  else if doy < monthSum leap 10 then 9
  else if doy < monthSum leap 11 then 10
  else 11

/-- The `month` getter of `pdate.ts`: table lookup at
`value - (days to Jan 1 of this year)`. -/
def PDate.month (value : Nat) : Nat :=
  let nyear := PDate.year value - 2000
  let d := daysToYearStart nyear
  monthFromDayOfYear (PDate.isLeapYear nyear) (value - d)

/-- The `day` getter of `pdate.ts`:
`value - triplet_to_days_value(year, month, 1) + 1`. -/
def PDate.day (value : Nat) : Nat :=
  value - triplet_to_days_value (PDate.year value) (PDate.month value) 1 + 1

/-! ### CategoryRule and its occurrence counter (`category.js`) -/

/-- The `CategoryRulePeriod` enum of `category.js` (numeric values 2-5 in the
source, irrelevant here). -/
inductive CategoryRulePeriod
  | Day
  | Week
  | Month
  | Year
deriving DecidableEq, Repr

/-- The `CategoryRule` record of `category.js`.  `repeatN` is documented as a
positive integer (its invariant check `repeatN >>> 0 === repeatN` also lets
`0` through; every occurrence-count statement below assumes `1 ≤ repeatN`,
where JS would produce `Infinity` on division by zero). -/
structure CategoryRule where
  amount : Int
  startDate : Option Nat
  endDate : Option Nat
  repeatN : Nat
  period : Option CategoryRulePeriod
deriving DecidableEq, Repr

/-- The `months` local of the Month arm of `countOccurrencesBetween`:
`(lastDay.year - firstDay.year) * 12 + (lastDay.month - firstDay.month)
+ (lastDay.day >= firstDay.day ? 1 : 0)`. -/
def monthsTerm (firstDay lastDay : Nat) : Int :=
  ((PDate.year lastDay : Int) - (PDate.year firstDay : Int)) * 12
    + ((PDate.month lastDay : Int) - (PDate.month firstDay : Int))
    + (if PDate.day firstDay ≤ PDate.day lastDay then 1 else 0)

/-- Step 1 of `countOccurrencesBetween` in `category.js`: the per-period
count of occurrences over the effective window `[firstDay, lastDay]`
(`daysDiff = max(0, lastDay - firstDay)` is inlined). -/
def periodCount (p : CategoryRulePeriod) (repeatN : Nat) (firstDay lastDay : Nat) : Int :=
  match p with
  | .Day => max 0 ((lastDay : Int) - (firstDay : Int)) / repeatN + 1
  | .Week => max 0 ((lastDay : Int) - (firstDay : Int)) / (repeatN * 7) + 1
  | .Month => (monthsTerm firstDay lastDay - 1) / repeatN + 1
  | .Year => ((PDate.year lastDay : Int) - (PDate.year firstDay : Int))
      + (if PDate.month firstDay < PDate.month lastDay
           ∨ (PDate.month lastDay = PDate.month firstDay
              ∧ PDate.day firstDay ≤ PDate.day lastDay)
         then 1 else 0)

/-- `CategoryRule.countOccurrencesBetween(dateBegin, dateEnd)` from
`category.js`: how many times the rule fires within the inclusive window.
The source's trailing step subtracts, when the rule's own `startDate`
precedes `dateBegin`, a recursive count over `[startDate, dateBegin - 1]`;
that recursive call starts at the rule's anchor, so it never recurses
further (the termination measure below). -/
def countOccurrencesBetween (rule : CategoryRule) (dateBegin dateEnd : Nat) : Int :=
  if (match rule.startDate with | some s => decide (dateEnd < s) | none => false) then 0
  else if (match rule.endDate with | some e => decide (e < dateBegin) | none => false) then 0
  else
    match rule.period with
    | none => 1
    | some p =>
      let lastDay : Nat := match rule.endDate with
        | some e => if e < dateEnd then e else dateEnd
        | none => dateEnd
      let result := periodCount p rule.repeatN (rule.startDate.getD dateBegin) lastDay
      if h : rule.startDate.getD dateBegin < dateBegin then
        result - countOccurrencesBetween rule (rule.startDate.getD dateBegin) (dateBegin - 1)
      else result
termination_by dateBegin - rule.startDate.getD dateBegin
decreasing_by
  cases hs : rule.startDate with
  | none => simp [hs] at h
  | some s =>
    simp only [hs, Option.getD] at h ⊢
    omega

/-- Fuel-indexed variant of `countOccurrencesBetween` that also models the
source's entry assertion `assert(dateEnd >= dateBegin)`: `none` means the
computation either failed that assertion or ran out of recursion fuel. -/
def countOccurrencesFuel : Nat → CategoryRule → Nat → Nat → Option Int
  | 0, _, _, _ => none
  | fuel + 1, rule, dateBegin, dateEnd =>
    if dateEnd < dateBegin then none
    else if (match rule.startDate with | some s => decide (dateEnd < s) | none => false) then some 0
    else if (match rule.endDate with | some e => decide (e < dateBegin) | none => false) then some 0
    else
      match rule.period with
      | none => some 1
      | some p =>
        let lastDay : Nat := match rule.endDate with
          | some e => if e < dateEnd then e else dateEnd
          | none => dateEnd
        let result := periodCount p rule.repeatN (rule.startDate.getD dateBegin) lastDay
        if rule.startDate.getD dateBegin < dateBegin then
          (countOccurrencesFuel fuel rule (rule.startDate.getD dateBegin) (dateBegin - 1)).map
            (fun inner => result - inner)
        else some result

/-- The weekly rule of the spec's scenario 2: every 2 weeks, anchored
2012-04-17 (a Tuesday), no end date. -/
def exampleWeeklyRule : CategoryRule :=
  { amount := 0
    startDate := some (triplet_to_days_value 2012 3 17)
    endDate := none
    repeatN := 2
    period := some .Week }

/-! ### Value records (`account.ts`, `category.js`, `transaction.js`) -/

/-- The `Account` record (`account.ts`).  Ids are positive integers or null. -/
structure Account where
  id : Option Nat
  name : String
  initialBalance : Int
  currencyCode : String
deriving DecidableEq, Repr

/-- The `TransactionDetail` record (`transaction.js`). -/
structure TransactionDetail where
  amount : Int
  description : String
  categoryId : Option Nat
deriving DecidableEq, Repr

/-- The `Transaction` record (`transaction.js`). -/
structure Transaction where
  id : Option Nat
  date : Option Nat
  accountId : Option Nat
  who : String
  detail : List TransactionDetail
  userId : Option Nat
  pending : Bool
  isTransfer : Bool
deriving DecidableEq, Repr

/-- The `amount` getter of `Transaction`: the sum of the detail amounts
(`this.detail.reduce((acc, d) => acc + d.amount, 0)`). -/
def Transaction.amount (t : Transaction) : Int :=
  t.detail.foldl (fun acc d => acc + d.amount) 0

/-- The `Category` record (`category.js`).  `rules = none` marks an
automatic category. -/
structure Category where
  id : Option Nat
  name : String
  rules : Option (List CategoryRule)
  notes : String
  currencyCode : String
  groupId : Option Nat
deriving DecidableEq, Repr

/-- The `CategoryGroup` record (`category.js`). -/
structure CategoryGroup where
  id : Option Nat
  name : String
deriving DecidableEq, Repr

/-! ### Ordered-map operations

Immutable.js `OrderedMap`s keyed by record id are modelled as lists in
iteration order.  `set` replaces in place for a present key and appends for
a new one; `delete` filters; `get` finds.
-/

/-- `map.get(k)` on an id-keyed ordered map. -/
def mapGet (key : α → Option Nat) (l : List α) (k : Nat) : Option α :=
  l.find? (fun x => key x == some k)

/-- `map.set(v.id, v)` on an id-keyed ordered map: replace in place if the
key is present, append otherwise (Immutable.js `Map.set` semantics). -/
def mapSet (key : α → Option Nat) (l : List α) (v : α) : List α :=
  if l.any (fun x => key x == key v) then
    l.map (fun x => if key x == key v then v else x)
  else l ++ [v]

/-- `map.delete(k)` on an id-keyed ordered map. -/
def mapDelete (key : α → Option Nat) (l : List α) (k : Nat) : List α :=
  l.filter (fun x => !(key x == some k))

/-- Immutable.js `List.insert(index, x)` (a `splice`): a negative index
counts from the end and the resolved index is clamped to `[0, size]`. -/
def listInsert (l : List α) (index : Int) (x : α) : List α :=
  let i : Nat := if index < 0 then ((l.length : Int) + index).toNat else min index.toNat l.length
  l.insertIdx i x

/-- Stable insertion of `x` after every element of equal or smaller key. -/
def insertSortedBy (key : α → Nat) (x : α) : List α → List α
  | [] => [x]
  | y :: ys => if key y ≤ key x then y :: insertSortedBy key x ys else x :: y :: ys

/-- Immutable.js `sortBy(mapper)`: its `sortFactory` tie-breaks equal keys
by original position, so the sort is stable; a left fold of stable
insertions implements exactly that. -/
def stableSortBy (key : α → Nat) (l : List α) : List α :=
  l.foldl (fun acc x => insertSortedBy key x acc) []

/-! ### Budget (`budget.ts`, `src/unnamed/part_011`) -/

/-- The `Budget` aggregate: ordered collections in iteration order.
`startDate`/`endDate` are `PDate` day values. -/
structure Budget where
  id : Option Int
  name : String
  startDate : Nat
  endDate : Nat
  currencyCode : String
  accounts : List Account
  categories : List Category
  categoryGroups : List CategoryGroup
  transactions : List Transaction
deriving DecidableEq, Repr

/-- Errors thrown by the engine: `assert` / invariant-check failures
(`InvariantViolation` in the spec), and the strict-mode `TypeError` hit by
the inverter's missing-record post-processing (see `inverter`). -/
inductive JsError
  | invariantViolation
  | typeError
deriving DecidableEq, Repr

/-- The currency codes of `SUPPORTED_CURRENCIES` in `currency.js`. -/
def currencyKnown (code : String) : Bool :=
  code == "CAD" || code == "EUR" || code == "USD" || code == "JPY" || code == "XBT"

/-- Record-level `_checkInvariants` of `Account` (runs on construction and
merge): the currency code must be known.  Type-shape assertions are
vacuous in the typed model. -/
def accountRecordOk (a : Account) : Bool := currencyKnown a.currencyCode

/-- Record-level `_checkInvariants` of `Category`. -/
def categoryRecordOk (c : Category) : Bool := currencyKnown c.currencyCode

/-- Record-level `_checkInvariants` of `Transaction`: non-empty detail, and
transfers carry no categories. -/
def transactionRecordOk (t : Transaction) : Bool :=
  decide (0 < t.detail.length)
  && (!t.isTransfer || t.detail.all (fun d => d.categoryId == none))

/-- Error paths of `Category._validate` (`category.js`): the group must
exist in the budget, and no two rules may overlap (an ordered pair `(i,j)`,
`i ≠ j`, where rule `i` fires within rule `j`'s effective window, clamped
to the budget period). -/
def categoryErrorFree (groups : List CategoryGroup) (budgetStart budgetEnd : Nat)
    (c : Category) : Bool :=
  (match c.groupId with
   | none => false
   | some g => (mapGet CategoryGroup.id groups g).isSome)
  && (match c.rules with
      | none => true
      | some rules =>
        rules.enum.all (fun pi =>
          rules.enum.all (fun pj =>
            pi.1 == pj.1
            || countOccurrencesBetween pi.2 (pj.2.startDate.getD budgetStart)
                 (pj.2.endDate.getD budgetEnd) == 0)))

/-- Error paths of `Transaction._validate` (`transaction.js`): a set
`accountId` must exist; a set `detail.categoryId` must exist and (when the
account also exists) its category currency must match the account currency.
Warnings are not modelled: they never make `assertIsValidForBudget` throw. -/
def transactionErrorFree (accounts : List Account) (categories : List Category)
    (t : Transaction) : Bool :=
  (match t.accountId with
   | none => true
   | some aid => (mapGet Account.id accounts aid).isSome)
  && t.detail.all (fun d =>
       match d.categoryId with
       | none => true
       | some cid =>
         match mapGet Category.id categories cid with
         | none => false
         | some cat =>
           match t.accountId with
           | none => true
           | some aid =>
             match mapGet Account.id accounts aid with
             | some acct => acct.currencyCode == cat.currencyCode
             | none => true)

/-- `Budget._checkInvariants`, which runs at the end of every `set`/`merge`
a structural mutator performs: the budget currency is known, the date range
is ordered, and every category and transaction passes
`assertIsValidForBudget` (no `_validate` errors). -/
def budgetCheckOk (b : Budget) : Bool :=
  currencyKnown b.currencyCode
  && decide (b.startDate ≤ b.endDate)
  && b.categories.all (categoryErrorFree b.categoryGroups b.startDate b.endDate)
  && b.transactions.all (transactionErrorFree b.accounts b.categories)

/-- Wraps a mutated budget in the invariant check its final `set`/`merge`
performs: `InvariantViolation` when `_checkInvariants` fails. -/
def checkBudget (b : Budget) : Except JsError Budget :=
  if budgetCheckOk b then .ok b else .error .invariantViolation

/-- `_createOrderedCategoryMap` (`budget.ts`): stable-sort the categories by
the position of their group in the group list.  A null `groupId` sorts with
key 0 (the source's falsy check); the source's `keyOf` yields `undefined`
for an unknown group, which never occurs in a checked budget — here it
sorts last. -/
def _createOrderedCategoryMap (categories : List Category)
    (categoryGroups : List CategoryGroup) : List Category :=
  stableSortBy (fun c =>
    match c.groupId with
    | none => 0
    | some g =>
      match categoryGroups.findIdx? (fun cg => cg.id == some g) with
      | some i => i
      | none => categoryGroups.length) categories

/-- `Budget.deleteCategory`: null out matching transaction detail
references, then delete the category. -/
def Budget.deleteCategory (b : Budget) (id : Nat) : Except JsError Budget :=
  let transactions := b.transactions.map (fun t =>
    { t with detail := t.detail.map (fun d =>
        if d.categoryId == some id then { d with categoryId := none } else d) })
  checkBudget { b with categories := mapDelete Category.id b.categories id,
                       transactions := transactions }

/-- `Budget.updateCategory`: upsert; when the group changed (or the category
is new) the category is moved to the end and the whole map re-sorted by
group.  A missing id throws. -/
def Budget.updateCategory (b : Budget) (category : Category) : Except JsError Budget :=
  match category.id with
  | none => .error .invariantViolation
  | some cid =>
    match mapGet Category.id b.categories cid with
    | some origCategory =>
      if origCategory.groupId == category.groupId then
        checkBudget { b with categories := mapSet Category.id b.categories category }
      else
        let categories := _createOrderedCategoryMap
          (mapDelete Category.id b.categories cid ++ [category]) b.categoryGroups
        checkBudget { b with categories := categories }
    | none =>
      let categories := _createOrderedCategoryMap
        (mapDelete Category.id b.categories cid ++ [category]) b.categoryGroups
      checkBudget { b with categories := categories }

/-- `Budget.positionCategory`: move a category within its group; asserts the
category exists and `0 ≤ newIndex ≤ group size`.  The overall index is the
current overall index shifted by the in-group delta. -/
def Budget.positionCategory (b : Budget) (categoryId : Nat) (newIndex : Int) :
    Except JsError Budget :=
  match mapGet Category.id b.categories categoryId with
  | none => .error .invariantViolation
  | some category =>
    let groupCategories := b.categories.filter (fun c => c.groupId == category.groupId)
    if !(0 ≤ newIndex ∧ newIndex ≤ (groupCategories.length : Int)) then
      .error .invariantViolation
    else
      let currentIndexOverall := (b.categories.findIdx? (fun c => c.id == some categoryId)).getD 0
      let currentIndexWithinGroup :=
        (groupCategories.findIdx? (fun c => c.id == some categoryId)).getD 0
      let newIndexOverall : Int :=
        (currentIndexOverall : Int) + (newIndex - (currentIndexWithinGroup : Int))
      let categories := listInsert
        (b.categories.filter (fun c => !(c.id == some categoryId))) newIndexOverall category
      checkBudget { b with categories := categories }

/-- `Budget.deleteCategoryGroup`: only an empty group may be deleted. -/
def Budget.deleteCategoryGroup (b : Budget) (id : Nat) : Except JsError Budget :=
  if !(b.categories.filter (fun c => c.groupId == some id)).isEmpty then
    .error .invariantViolation
  else
    checkBudget { b with categoryGroups := mapDelete CategoryGroup.id b.categoryGroups id }

/-- `Budget.updateCategoryGroup`: upsert by id; a missing id throws. -/
def Budget.updateCategoryGroup (b : Budget) (categoryGroup : CategoryGroup) :
    Except JsError Budget :=
  match categoryGroup.id with
  | none => .error .invariantViolation
  | some _ =>
    checkBudget { b with categoryGroups := mapSet CategoryGroup.id b.categoryGroups categoryGroup }

/-- `Budget.positionCategoryGroup`: reposition a group in the group list.
Note that (unlike `updateCategory`) it re-sorts nothing else: the
categories map is left untouched. -/
def Budget.positionCategoryGroup (b : Budget) (groupId : Nat) (newIndex : Int) :
    Except JsError Budget :=
  match mapGet CategoryGroup.id b.categoryGroups groupId with
  | none => .error .invariantViolation
  | some categoryGroup =>
    let categoryGroups := listInsert
      (b.categoryGroups.filter (fun g => !(g.id == some groupId))) newIndex categoryGroup
    checkBudget { b with categoryGroups := categoryGroups }

/-- `Budget.deleteAccount`: null out matching transaction `accountId`s,
then delete the account. -/
def Budget.deleteAccount (b : Budget) (id : Nat) : Except JsError Budget :=
  let transactions := b.transactions.map (fun t =>
    if t.accountId == some id then { t with accountId := none } else t)
  checkBudget { b with accounts := mapDelete Account.id b.accounts id,
                       transactions := transactions }

/-- `Budget.updateAccount`: upsert by id; a missing id throws. -/
def Budget.updateAccount (b : Budget) (newAccount : Account) : Except JsError Budget :=
  match newAccount.id with
  | none => .error .invariantViolation
  | some _ =>
    checkBudget { b with accounts := mapSet Account.id b.accounts newAccount }

/-- `Budget.positionAccount`: reposition an account.  The source asserts
only that the account exists — there is no bounds check on `newIndex`
(`List.insert` clamps). -/
def Budget.positionAccount (b : Budget) (accountId : Nat) (newIndex : Int) :
    Except JsError Budget :=
  match mapGet Account.id b.accounts accountId with
  | none => .error .invariantViolation
  | some account =>
    let accounts := listInsert
      (b.accounts.filter (fun a => !(a.id == some accountId))) newIndex account
    checkBudget { b with accounts := accounts }

/-- `Budget.transactionSorter`: sort key of a transaction —
`date?.value ?? 999999`. -/
def Budget.transactionSorter (t : Transaction) : Nat :=
  match t.date with
  | none => nullDateSortKey
  | some v => v

/-- `Budget.deleteTransaction`. -/
def Budget.deleteTransaction (b : Budget) (id : Nat) : Except JsError Budget :=
  checkBudget { b with transactions := mapDelete Transaction.id b.transactions id }

/-- `Budget.updateTransaction`: upsert; asserts the id is a number and the
`accountId` (when set) is valid.  Re-sorts only when the date changed (the
source compares `+(date ?? -1)`, equivalent to comparing the optional
dates), or when inserting a dated transaction. -/
def Budget.updateTransaction (b : Budget) (newTransaction : Transaction) :
    Except JsError Budget :=
  match newTransaction.id with
  | none => .error .invariantViolation
  | some id =>
    if !(match newTransaction.accountId with
         | none => true
         | some aid => (mapGet Account.id b.accounts aid).isSome) then
      .error .invariantViolation
    else
      let sortRequired := match mapGet Transaction.id b.transactions id with
        | some oldTransaction => !(newTransaction.date == oldTransaction.date)
        | none => !(newTransaction.date == none)
      let newTransactions := mapSet Transaction.id b.transactions newTransaction
      let newTransactions := if sortRequired then
          stableSortBy Budget.transactionSorter newTransactions
        else newTransactions
      checkBudget { b with transactions := newTransactions }

/-! ### Balance derivation (`budget.ts`) -/

/-- Keyed lookup, used both for JS objects (the balance tables, whose keys
include the `null` account id, distinct from every numeric key, and whose
values use `none` for `NaN`) and for Immutable maps (category balances).
Returns `none` when the key is absent (`undefined` / `map.get` miss). -/
def objGet [BEq κ] (m : List (κ × ν)) (k : κ) : Option ν :=
  (m.find? (fun p => p.1 == k)).map (fun p => p.2)

/-- Keyed update: overwrite in place when the key is present, append
otherwise — both JS object assignment and Immutable `map.set` behave so. -/
def objSet [BEq κ] (m : List (κ × ν)) (k : κ) (v : ν) : List (κ × ν) :=
  if m.any (fun p => p.1 == k) then
    m.map (fun p => if p.1 == k then (k, v) else p)
  else m ++ [(k, v)]

/-- One step of `Budget._computeBalances`: start from each account's
`initialBalance`, then walk the transactions in map order; a non-pending
transaction with an `accountId` adds its amount to that account's running
balance (`accountBalances[id] += amount`; an absent key would make the JS
sum `NaN`, modelled by `none`), and records the running balance under its
own id when it has one. -/
def balanceStep (state : List (Option Nat × Option Int) × List (Nat × Option Int))
    (t : Transaction) : List (Option Nat × Option Int) × List (Nat × Option Int) :=
  if t.pending || t.accountId == none then state
  else
    let balance : Option Int := match objGet state.1 t.accountId with
      | some (some v) => some (v + t.amount)
      | _ => none
    let accountBalances := objSet state.1 t.accountId balance
    let transactionBalances := match t.id with
      | some tid => state.2 ++ [(tid, balance)]
      | none => state.2
    (accountBalances, transactionBalances)

/-- The transaction walk of `_computeBalances`. -/
def Budget._computeBalances (b : Budget) :
    List (Option Nat × Option Int) × List (Nat × Option Int) :=
  b.transactions.foldl balanceStep
    (b.accounts.map (fun a => (a.id, some a.initialBalance)), [])

/-- The `accountBalances` getter. -/
def Budget.accountBalances (b : Budget) : List (Option Nat × Option Int) :=
  b._computeBalances.1

/-- One detail of the `categoryBalancesOnDate` loop: add the amount into
its category's bucket (`map.set(cid, map.get(cid, 0) + amount)`); details
with a null category are skipped. -/
def addDetail (m : List (Nat × Int)) (d : TransactionDetail) : List (Nat × Int) :=
  match d.categoryId with
  | none => m
  | some cid => objSet m cid ((objGet m cid).getD 0 + d.amount)

/-- The transaction loop of `Budget.categoryBalancesOnDate`: iterate in map
order, `break` at the first transaction whose date is null or past the
query date, and fold every detail through `addDetail`. -/
def categoryBalancesLoop (date : Nat) : List Transaction → List (Nat × Int) → List (Nat × Int)
  | [], m => m
  | t :: ts, m =>
    match t.date with
    | none => m
    | some dv =>
      if date < dv then m
      else categoryBalancesLoop date ts (t.detail.foldl addDetail m)

/-- `Budget.categoryBalancesOnDate(date)`: asserts
`startDate ≤ date ≤ endDate`, then runs the loop above. -/
def Budget.categoryBalancesOnDate (b : Budget) (date : Nat) :
    Except JsError (List (Nat × Int)) :=
  if b.startDate ≤ date ∧ date ≤ b.endDate then
    .ok (categoryBalancesLoop date b.transactions [])
  else .error .invariantViolation

/-! ### Commands, reducer, inverter (`redux/prophecy_redux.js`)

The modelled command set covers the account / category / category-group /
transaction commands (`NOOP`, `DELETE_*`, `UPDATE_*`).  The `SET_*` setters,
`UPDATE_MULTIPLE_TRANSACTIONS` and non-prophecy actions are outside this
embedding.  A command's `data` payload is a partial record: `none` means
the key is absent.  `budgetId` is `none` when absent and `some v` when
present with value `v` (itself `none` for JSON `null`). -/

/-- Partial `data` payload of `UPDATE_ACCOUNT`. -/
structure AccountData where
  name : Option String := none
  initialBalance : Option Int := none
  currencyCode : Option String := none
deriving DecidableEq, Repr

/-- Partial `data` payload of `UPDATE_CATEGORY`. -/
structure CategoryData where
  name : Option String := none
  rules : Option (Option (List CategoryRule)) := none
  notes : Option String := none
  currencyCode : Option String := none
  groupId : Option (Option Nat) := none
deriving DecidableEq, Repr

/-- Partial `data` payload of `UPDATE_CATEGORY_GROUP`. -/
structure CategoryGroupData where
  name : Option String := none
deriving DecidableEq, Repr

/-- Partial `data` payload of `UPDATE_TRANSACTION`. -/
structure TransactionData where
  date : Option (Option Nat) := none
  accountId : Option (Option Nat) := none
  who : Option String := none
  detail : Option (List TransactionDetail) := none
  userId : Option (Option Nat) := none
  pending : Option Bool := none
  isTransfer : Option Bool := none
deriving DecidableEq, Repr

/-- The modelled prophecy commands.  Every constructor's last field is the
optional `budgetId`. -/
inductive Command where
  | noop (budgetId : Option (Option Int))
  | deleteAccount (id : Nat) (budgetId : Option (Option Int))
  | updateAccount (id : Nat) (data : Option AccountData) (index : Option Int)
      (linkNullTransactions : Option (List (Option Nat))) (budgetId : Option (Option Int))
  | deleteCategory (id : Nat) (budgetId : Option (Option Int))
  | updateCategory (id : Nat) (data : Option CategoryData) (index : Option Int)
      (linkTransactionDetails : Option (List (Option Nat × Nat)))
      (budgetId : Option (Option Int))
  | deleteCategoryGroup (id : Nat) (budgetId : Option (Option Int))
  | updateCategoryGroup (id : Nat) (data : Option CategoryGroupData) (index : Option Int)
      (budgetId : Option (Option Int))
  | deleteTransaction (id : Nat) (budgetId : Option (Option Int))
  | updateTransaction (id : Nat) (data : TransactionData) (budgetId : Option (Option Int))
deriving DecidableEq, Repr

/-- The `budgetId` field of a command. -/
def Command.budgetIdOf : Command → Option (Option Int)
  | .noop b => b
  | .deleteAccount _ b => b
  | .updateAccount _ _ _ _ b => b
  | .deleteCategory _ b => b
  | .updateCategory _ _ _ _ b => b
  | .deleteCategoryGroup _ b => b
  | .updateCategoryGroup _ _ _ b => b
  | .deleteTransaction _ b => b
  | .updateTransaction _ _ b => b

/-- Overwrite a command's `budgetId` (the inverter's
`result.budgetId = state.id`). -/
def Command.withBudgetId : Command → Option Int → Command
  | .noop _, v => .noop (some v)
  | .deleteAccount i _, v => .deleteAccount i (some v)
  | .updateAccount i d x l _, v => .updateAccount i d x l (some v)
  | .deleteCategory i _, v => .deleteCategory i (some v)
  | .updateCategory i d x l _, v => .updateCategory i d x l (some v)
  | .deleteCategoryGroup i _, v => .deleteCategoryGroup i (some v)
  | .updateCategoryGroup i d x _, v => .updateCategoryGroup i d x (some v)
  | .deleteTransaction i _, v => .deleteTransaction i (some v)
  | .updateTransaction i d _, v => .updateTransaction i d (some v)

/-- `acct.merge(action.data)`: overwrite the present keys, then run the
record's `_checkInvariants`. -/
def accountMerge (a : Account) (d : AccountData) : Except JsError Account :=
  let merged : Account :=
    { a with name := d.name.getD a.name,
             initialBalance := d.initialBalance.getD a.initialBalance,
             currencyCode := d.currencyCode.getD a.currencyCode }
  if accountRecordOk merged then .ok merged else .error .invariantViolation

/-- `category.merge(Category.cleanArgs(action.data))` with the record's
`_checkInvariants`. -/
def categoryMerge (c : Category) (d : CategoryData) : Except JsError Category :=
  let merged : Category :=
    { c with name := d.name.getD c.name,
             rules := d.rules.getD c.rules,
             notes := d.notes.getD c.notes,
             currencyCode := d.currencyCode.getD c.currencyCode,
             groupId := d.groupId.getD c.groupId }
  if categoryRecordOk merged then .ok merged else .error .invariantViolation

/-- `txn.merge(Transaction.cleanArgs(action.data))` with the record's
`_checkInvariants`. -/
def transactionMerge (t : Transaction) (d : TransactionData) : Except JsError Transaction :=
  let merged : Transaction :=
    { t with date := d.date.getD t.date,
             accountId := d.accountId.getD t.accountId,
             who := d.who.getD t.who,
             detail := d.detail.getD t.detail,
             userId := d.userId.getD t.userId,
             pending := d.pending.getD t.pending,
             isTransfer := d.isTransfer.getD t.isTransfer }
  if transactionRecordOk merged then .ok merged else .error .invariantViolation

/-- A fresh `new Account({id})` with the record's default field values. -/
def defaultAccount (id : Nat) : Account :=
  { id := some id, name := "", initialBalance := 0, currencyCode := "USD" }

/-- A fresh `new Category({id})`. -/
def defaultCategory (id : Nat) : Category :=
  { id := some id, name := "", rules := none, notes := "", currencyCode := "USD",
    groupId := none }

/-- A fresh `new CategoryGroup({id})`. -/
def defaultCategoryGroup (id : Nat) : CategoryGroup :=
  { id := some id, name := "" }

/-- A fresh `new Transaction({id})` (note `pending` defaults to `true` and
`detail` to one empty detail row). -/
def defaultTransaction (id : Nat) : Transaction :=
  { id := some id, date := none, accountId := none, who := "",
    detail := [{ amount := 0, description := "", categoryId := none }],
    userId := none, pending := true, isTransfer := false }

/-- The `reducer` of `prophecy_redux.js`, over the modelled command set.
A command whose `budgetId` is present but differs from `state.id` leaves
the state unchanged; otherwise the command's mutators run (and any
`InvariantViolation` they throw propagates to the caller). -/
def reduce (state : Budget) (action : Command) : Except JsError Budget :=
  if (match action.budgetIdOf with
      | some bid => !(bid == state.id)
      | none => false) then .ok state
  else
    match action with
    | .noop _ => .ok state
    | .deleteAccount id _ => state.deleteAccount id
    | .updateAccount id data index link _ => do
      let existingAccount := mapGet Account.id state.accounts id
      let acct := existingAccount.getD (defaultAccount id)
      let s1 ← match data with
        | some d => do state.updateAccount (← accountMerge acct d)
        | none => .ok state
      let s2 ← match link with
        | none => .ok s1
        | some txnIds =>
          if existingAccount.isSome then .error .invariantViolation
          else
            txnIds.foldlM (fun (st : Budget) txnId =>
              let nullTransactions := st.transactions.filter (fun t => t.accountId == none)
              match nullTransactions.find? (fun t => t.id == txnId) with
              | some txn => st.updateTransaction { txn with accountId := some id }
              | none => .ok st) s1
      match index with
      | some i => s2.positionAccount id i
      | none => .ok s2
    | .deleteCategory id _ => state.deleteCategory id
    | .updateCategory id data index link _ => do
      let existingCategory := mapGet Category.id state.categories id
      let category := existingCategory.getD (defaultCategory id)
      let s1 ← match data with
        | some d => do state.updateCategory (← categoryMerge category d)
        | none => .ok state
      let s2 ← match index with
        | some i => s1.positionCategory id i
        | none => .ok s1
      match link with
      | none => .ok s2
      | some pairs =>
        if existingCategory.isSome then .error .invariantViolation
        else
          pairs.foldlM (fun (st : Budget) pair =>
            match st.transactions.find? (fun t => t.id == pair.1) with
            | some txn =>
              let newDetail := List.modify
                (fun d => if d.categoryId == none then { d with categoryId := some id }
                          else d) pair.2 txn.detail
              st.updateTransaction { txn with detail := newDetail }
            | none => .ok st) s2
    | .deleteCategoryGroup id _ => state.deleteCategoryGroup id
    | .updateCategoryGroup id data index _ => do
      let existingGroup := mapGet CategoryGroup.id state.categoryGroups id
      let group := existingGroup.getD (defaultCategoryGroup id)
      let s1 ← match data with
        | some d => state.updateCategoryGroup { group with name := d.name.getD group.name }
        | none => .ok state
      match index with
      | some i => s1.positionCategoryGroup id i
      | none => .ok s1
    | .deleteTransaction id _ => state.deleteTransaction id
    | .updateTransaction id data _ => do
      let txn := (mapGet Transaction.id state.transactions id).getD (defaultTransaction id)
      state.updateTransaction (← transactionMerge txn data)

/-- Value produced by the inner switch of the `inverter`: either an action
object (whose `type`, when the arm leaves it implicit, is the forward
action's type — in this typed model the constructor itself), or the raw
`ACTION.NOOP` type string that the `DELETE_*` arms return for a missing
record. -/
inductive InverterValue where
  | cmd (c : Command)
  | rawNoop
deriving DecidableEq, Repr

/-- The inner switch of the `inverter` in `prophecy_redux.js`. -/
def inverterInner (state : Budget) (action : Command) : InverterValue :=
  match action with
  | .noop _ => .cmd (.noop none)
  | .deleteAccount id _ =>
    match mapGet Account.id state.accounts id with
    | some acct =>
      let data : AccountData :=
        { name := some acct.name, initialBalance := some acct.initialBalance,
          currencyCode := some acct.currencyCode }
      let linkNullTransactions :=
        (state.transactions.filter (fun t => t.accountId == some id)).map (fun t => t.id)
      let index : Int :=
        ((state.accounts.findIdx? (fun a => a.id == some id)).getD 0 : Nat)
      .cmd (.updateAccount id (some data) (some index) (some linkNullTransactions) none)
    | none => .rawNoop
  | .updateAccount id data index _ _ =>
    match mapGet Account.id state.accounts id with
    | some acct =>
      let inverseData : Option AccountData := data.map (fun d =>
        { name := d.name.bind (fun v => if acct.name == v then none else some acct.name),
          initialBalance := d.initialBalance.bind
            (fun v => if acct.initialBalance == v then none else some acct.initialBalance),
          currencyCode := d.currencyCode.bind
            (fun v => if acct.currencyCode == v then none else some acct.currencyCode) })
      let oldIndex : Int := ((state.accounts.findIdx? (fun a => a.id == some id)).getD 0 : Nat)
      let inverseIndex : Option Int :=
        index.bind (fun i => if i == oldIndex then none else some oldIndex)
      .cmd (.updateAccount id inverseData inverseIndex none none)
    | none => .cmd (.deleteAccount id none)
  | .deleteCategory id _ =>
    match mapGet Category.id state.categories id with
    | some category =>
      let data : CategoryData :=
        { name := some category.name, rules := some category.rules,
          notes := some category.notes, currencyCode := some category.currencyCode,
          groupId := some category.groupId }
      let linkTransactionDetails : List (Option Nat × Nat) :=
        state.transactions.foldl (fun acc txn =>
          acc ++ ((txn.detail.enum.filterMap (fun p =>
            if p.2.categoryId == category.id then some (txn.id, p.1) else none)))) []
      let index : Int :=
        (((state.categories.filter (fun c => c.groupId == category.groupId)).findIdx?
          (fun c => c.id == some id)).getD 0 : Nat)
      .cmd (.updateCategory id (some data) (some index) (some linkTransactionDetails) none)
    | none => .rawNoop
  | .updateCategory id data index _ _ =>
    match mapGet Category.id state.categories id with
    | some category =>
      let inverseData : Option CategoryData := data.map (fun d =>
        { name := d.name.bind (fun v => if category.name == v then none else some category.name),
          rules := d.rules.bind (fun v =>
            if category.rules.isNone && v.isNone then none else some category.rules),
          notes := d.notes.bind
            (fun v => if category.notes == v then none else some category.notes),
          currencyCode := d.currencyCode.bind
            (fun v => if category.currencyCode == v then none else some category.currencyCode),
          groupId := d.groupId.bind
            (fun v => if category.groupId == v then none else some category.groupId) })
      let oldIndex : Int :=
        (((state.categories.filter (fun c => c.groupId == category.groupId)).findIdx?
          (fun c => c.id == some id)).getD 0 : Nat)
      let inverseIndex : Option Int :=
        index.bind (fun i => if i == oldIndex then none else some oldIndex)
      .cmd (.updateCategory id inverseData inverseIndex none none)
    | none => .cmd (.deleteCategory id none)
  | .deleteCategoryGroup id _ =>
    match mapGet CategoryGroup.id state.categoryGroups id with
    | some group =>
      .cmd (.updateCategoryGroup id (some { name := some group.name }) none none)
    | none => .rawNoop
  | .updateCategoryGroup id data index _ =>
    match mapGet CategoryGroup.id state.categoryGroups id with
    | some group =>
      let inverseData : Option CategoryGroupData := data.map (fun d =>
        { name := d.name.bind (fun v => if group.name == v then none else some group.name) })
      let oldIndex : Int :=
        ((state.categoryGroups.findIdx? (fun g => g.id == some id)).getD 0 : Nat)
      let inverseIndex : Option Int :=
        index.bind (fun i => if i == oldIndex then none else some oldIndex)
      .cmd (.updateCategoryGroup id inverseData inverseIndex none)
    | none => .cmd (.deleteCategoryGroup id none)
  | .deleteTransaction id _ =>
    match mapGet Transaction.id state.transactions id with
    | some txn =>
      let data : TransactionData :=
        { date := some txn.date, accountId := some txn.accountId, who := some txn.who,
          detail := some txn.detail, userId := some txn.userId,
          pending := some txn.pending, isTransfer := some txn.isTransfer }
      .cmd (.updateTransaction id data none)
    | none => .rawNoop
  | .updateTransaction id data _ =>
    match mapGet Transaction.id state.transactions id with
    | some txn =>
      let inverseData : TransactionData :=
        { date := data.date.bind (fun v => if txn.date == v then none else some txn.date),
          accountId := data.accountId.bind
            (fun v => if txn.accountId == v then none else some txn.accountId),
          who := data.who.bind (fun v => if txn.who == v then none else some txn.who),
          detail := data.detail.map (fun _ => txn.detail),
          userId := data.userId.bind
            (fun v => if txn.userId == v then none else some txn.userId),
          pending := data.pending.bind
            (fun v => if txn.pending == v then none else some txn.pending),
          isTransfer := data.isTransfer.bind
            (fun v => if txn.isTransfer == v then none else some txn.isTransfer) }
      .cmd (.updateTransaction id inverseData none)
    | none => .cmd (.deleteTransaction id none)

/-- The `inverter` of `prophecy_redux.js`: run the inner switch, then
post-process.  An action object gets `budgetId = state.id` (its `type` is
already carried by the constructor).  When the inner switch returned the
raw `NOOP` string (a `DELETE_*` of a missing record), the post-processing
`if (result)` is true (a non-empty string), `result.type` is `undefined`,
and the assignment `result.type = action.type` to a property of a string
primitive throws `TypeError` — prophecy-dist.js is a `"use strict"`
bundle. -/
def inverter (state : Budget) (action : Command) : Except JsError Command :=
  match inverterInner state action with
  | .rawNoop => .error .typeError
  | .cmd c => .ok (c.withBudgetId state.id)

/-- Round trip of the undo law: apply `action`, invert it against the
pre-state, apply the inverse; `none` when any step throws or the inverse is
null. -/
def undoRoundTrip (state : Budget) (action : Command) : Option Budget :=
  match reduce state action with
  | .error _ => none
  | .ok s1 =>
    match inverter state action with
    | .error _ => none
    | .ok inverseAction =>
      match reduce s1 inverseAction with
      | .error _ => none
      | .ok s2 => some s2

/-! ### Spec-side predicates and concrete example inputs -/

/-- Position of a category's group in the budget's group list (`length` when
the group is missing). -/
def categoryGroupIndex (b : Budget) (c : Category) : Nat :=
  b.categoryGroups.findIdx (fun g => g.id == c.groupId)

/-- The spec's dual-ordering invariant on categories: the categories map
iterates grouped by the order of `categoryGroups` — group positions are
non-decreasing along the map. -/
def categoriesGroupedByGroupOrder (b : Budget) : Prop :=
  (b.categories.map (categoryGroupIndex b)).Pairwise (· ≤ ·)

/-- The spec's chronological-ordering invariant on transactions:
non-decreasing `date.value` with null dates last (the sort keys, null
mapped to the sentinel, are non-decreasing). -/
def transactionsChronological (b : Budget) : Prop :=
  (b.transactions.map Budget.transactionSorter).Pairwise (· ≤ ·)

/-- First category of the undo-law example: in group 1, listed first. -/
def exUndoCatA : Category :=
  { id := some 5, name := "Cat A", rules := none, notes := "", currencyCode := "USD",
    groupId := some 1 }

/-- Second category of the undo-law example: in group 1, listed second. -/
def exUndoCatB : Category :=
  { id := some 6, name := "Cat B", rules := none, notes := "", currencyCode := "USD",
    groupId := some 1 }

/-- Pre-state of the undo-law counterexample: two groups, two categories in
group 1 (`Cat A` before `Cat B`), nothing else. -/
def exUndoState : Budget :=
  { id := none, name := "Test", startDate := 5844, endDate := 6209, currencyCode := "USD",
    accounts := [], categories := [exUndoCatA, exUndoCatB],
    categoryGroups := [{ id := some 1, name := "Group 1" }, { id := some 2, name := "Group 2" }],
    transactions := [] }

/-- The forward command of the undo-law counterexample: move `Cat A` to
group 2 (`UPDATE_CATEGORY` with only `groupId` in `data`, no `index`). -/
def exUndoCommand : Command := .updateCategory 5 (some { groupId := some (some 2) }) none none none

/-- What the round trip actually produces: `Cat A` is back in group 1 but
now listed after `Cat B`. -/
def exUndoResult : Budget :=
  { exUndoState with categories := [exUndoCatB, exUndoCatA] }

/-- Budget for the group-reordering example: group 1 then group 2, one
category in each, categories listed in group order. -/
def exGroupsState : Budget :=
  { id := none, name := "Test", startDate := 5844, endDate := 6209, currencyCode := "USD",
    accounts := [],
    categories :=
      [{ id := some 7, name := "Cat in G1", rules := none, notes := "", currencyCode := "USD",
         groupId := some 1 },
       { id := some 8, name := "Cat in G2", rules := none, notes := "", currencyCode := "USD",
         groupId := some 2 }],
    categoryGroups := [{ id := some 1, name := "Group 1" }, { id := some 2, name := "Group 2" }],
    transactions := [] }

/-- What `positionCategoryGroup(2, 0)` produces on `exGroupsState`: the
groups are reordered, the categories map is untouched. -/
def exGroupsResult : Budget :=
  { exGroupsState with
    categoryGroups := [{ id := some 2, name := "Group 2" }, { id := some 1, name := "Group 1" }] }

/-- An empty budget (the `new Budget()` of the tests, dates fixed to 2016). -/
def exEmptyBudget : Budget :=
  { id := none, name := "New Budget", startDate := 5844, endDate := 6209,
    currencyCode := "USD", accounts := [], categories := [], categoryGroups := [],
    transactions := [] }

/-- Budget with two accounts, for the repositioning example. -/
def exAccountsState : Budget :=
  { id := none, name := "Test", startDate := 5844, endDate := 6209, currencyCode := "USD",
    accounts := [{ id := some 1, name := "Account A", initialBalance := 0, currencyCode := "USD" },
                 { id := some 2, name := "Account B", initialBalance := 0, currencyCode := "USD" }],
    categories := [], categoryGroups := [], transactions := [] }

/-- `positionAccount(1, 5)` on `exAccountsState` clamps and moves account 1
to the end instead of throwing. -/
def exAccountsMoved : Budget :=
  { exAccountsState with
    accounts := [{ id := some 2, name := "Account B", initialBalance := 0, currencyCode := "USD" },
                 { id := some 1, name := "Account A", initialBalance := 0, currencyCode := "USD" }] }

/-- A small valid budget: one account, one group, one category, one posted
and one pending transaction, used by several witnesses below. -/
def exBudget : Budget :=
  { id := none, name := "Example", startDate := 5844, endDate := 6209, currencyCode := "USD",
    accounts := [{ id := some 1, name := "Cash", initialBalance := 100, currencyCode := "USD" }],
    categories := [{ id := some 7, name := "Groceries", rules := none, notes := "",
                     currencyCode := "USD", groupId := some 10 }],
    categoryGroups := [{ id := some 10, name := "Essentials" }],
    transactions :=
      [{ id := some 1, date := some 5850, accountId := some 1, who := "Store",
         detail := [{ amount := -30, description := "", categoryId := some 7 }],
         userId := none, pending := false, isTransfer := false },
       { id := some 2, date := some 5860, accountId := some 1, who := "Store",
         detail := [{ amount := -99, description := "", categoryId := some 7 }],
         userId := none, pending := true, isTransfer := false }] }

/-! ## Theorems -/

/-! ### Calendar arithmetic lemmas -/

theorem year_mono {u v : Nat} (h : u ≤ v) : PDate.year u ≤ PDate.year v := by
  unfold PDate.year
  omega

set_option maxRecDepth 4000 in
theorem mfd_step (leap : Bool) :
    ∀ x, x < 366 → monthFromDayOfYear leap x ≤ monthFromDayOfYear leap (x + 1) := by
  cases leap <;> decide

set_option maxRecDepth 4000 in
theorem mfd_bounded_le_11 (leap : Bool) : ∀ x, x < 367 → monthFromDayOfYear leap x ≤ 11 := by
  cases leap <;> decide

theorem monthSum_le_335 (leap : Bool) : ∀ k, k < 12 → monthSum leap k ≤ 335 := by
  cases leap <;> decide

theorem mfd_high (leap : Bool) (x : Nat) (h : 335 ≤ x) : monthFromDayOfYear leap x = 11 := by
  have c1 : ¬ x < monthSum leap 1 := by have := monthSum_le_335 leap 1 (by omega); omega
  have c2 : ¬ x < monthSum leap 2 := by have := monthSum_le_335 leap 2 (by omega); omega
  have c3 : ¬ x < monthSum leap 3 := by have := monthSum_le_335 leap 3 (by omega); omega
  have c4 : ¬ x < monthSum leap 4 := by have := monthSum_le_335 leap 4 (by omega); omega
  have c5 : ¬ x < monthSum leap 5 := by have := monthSum_le_335 leap 5 (by omega); omega
  have c6 : ¬ x < monthSum leap 6 := by have := monthSum_le_335 leap 6 (by omega); omega
  have c7 : ¬ x < monthSum leap 7 := by have := monthSum_le_335 leap 7 (by omega); omega
  have c8 : ¬ x < monthSum leap 8 := by have := monthSum_le_335 leap 8 (by omega); omega
  have c9 : ¬ x < monthSum leap 9 := by have := monthSum_le_335 leap 9 (by omega); omega
  have c10 : ¬ x < monthSum leap 10 := by have := monthSum_le_335 leap 10 (by omega); omega
  have c11 : ¬ x < monthSum leap 11 := by have := monthSum_le_335 leap 11 (by omega); omega
  unfold monthFromDayOfYear
  rw [if_neg c1, if_neg c2, if_neg c3, if_neg c4, if_neg c5, if_neg c6, if_neg c7,
    if_neg c8, if_neg c9, if_neg c10, if_neg c11]

theorem monthFromDayOfYear_le_11 (leap : Bool) (x : Nat) : monthFromDayOfYear leap x ≤ 11 := by
  rcases lt_or_ge x 366 with h | h
  · exact mfd_bounded_le_11 leap x (by omega)
  · rw [mfd_high leap x (by omega)]

theorem monthFromDayOfYear_mono (leap : Bool) {x y : Nat} (h : x ≤ y) :
    monthFromDayOfYear leap x ≤ monthFromDayOfYear leap y := by
  induction y with
  | zero =>
    have hx : x = 0 := by omega
    subst hx; exact le_refl _
  | succ n ih =>
    rcases Nat.lt_or_ge x (n + 1) with hlt | hge
    · have h1 := ih (by omega)
      rcases Nat.lt_or_ge n 366 with hn | hn
      · exact le_trans h1 (mfd_step leap n hn)
      · rw [mfd_high leap (n + 1) (by omega)]
        exact monthFromDayOfYear_le_11 leap x
    · have hx : x = n + 1 := by omega
      subst hx; exact le_refl _

theorem month_eq (v : Nat) :
    PDate.month v = monthFromDayOfYear (PDate.isLeapYear (PDate.year v - 2000))
      (v - daysToYearStart (PDate.year v - 2000)) := rfl

theorem month_le_11 (v : Nat) : PDate.month v ≤ 11 := by
  rw [month_eq]; exact monthFromDayOfYear_le_11 _ _

theorem yearMonthKey_mono {u v : Nat} (h : u ≤ v) :
    12 * PDate.year u + PDate.month u ≤ 12 * PDate.year v + PDate.month v := by
  have hy := year_mono h
  rcases eq_or_lt_of_le hy with heq | hlt
  · rw [month_eq u, month_eq v, heq]
    have hm := monthFromDayOfYear_mono (PDate.isLeapYear (PDate.year v - 2000))
      (Nat.sub_le_sub_right h (daysToYearStart (PDate.year v - 2000)))
    omega
  · have h1 := month_le_11 u
    have h2 := month_le_11 v
    omega

theorem day_mono_same {u v : Nat} (h : u ≤ v) (hy : PDate.year u = PDate.year v)
    (hm : PDate.month u = PDate.month v) : PDate.day u ≤ PDate.day v := by
  unfold PDate.day
  rw [hy, hm]
  omega

/-! ### Integer floor-division lemmas -/

theorem ediv_sub_ediv_le {x y : Int} (n : Int) (hn : 1 ≤ n) (hxy : y ≤ x) :
    x / n - y / n ≤ x - y := by
  have h1 : x ≤ y + (x - y) * n := by nlinarith
  have h2 : (y + (x - y) * n) / n = y / n + (x - y) :=
    Int.add_mul_ediv_right y (x - y) (by omega)
  have h3 := Int.ediv_le_ediv (by omega : (0:Int) < n) h1
  omega

theorem ediv_le_self_of_neg_one_le {x : Int} (n : Int) (hn : 1 ≤ n) (hx : -1 ≤ x) :
    x / n ≤ x := by
  rcases le_or_lt 0 x with h | h
  · exact Int.ediv_le_self n h
  · have hx1 : x = -1 := by omega
    subst hx1
    have h2 : (-1 : Int) / n < 0 := Int.ediv_neg' (by omega) (by omega)
    omega

theorem ediv_eq_of_bounds {x n q : Int} (hn : 0 < n) (h1 : n * q ≤ x) (h2 : x < n * (q + 1)) :
    x / n = q := by
  have ha := Int.ediv_add_emod x n
  have hb := Int.emod_nonneg x (by omega : n ≠ 0)
  have hc := Int.emod_lt_of_pos x hn
  nlinarith [Int.ediv_add_emod x n]

theorem ediv_ediv_comp (x : Int) {m n : Int} (hm : 1 ≤ m) (hn : 1 ≤ n) :
    x / m / n = x / (m * n) := by
  have hmn : (0:Int) < m * n := by positivity
  have ha := Int.ediv_add_emod x m
  have hb := Int.emod_nonneg x (by omega : m ≠ 0)
  have hc := Int.emod_lt_of_pos x (by omega : (0:Int) < m)
  have hd := Int.ediv_add_emod (x / m) n
  have he := Int.emod_nonneg (x / m) (by omega : n ≠ 0)
  have hf := Int.emod_lt_of_pos (x / m) (by omega : (0:Int) < n)
  refine (ediv_eq_of_bounds hmn ?_ ?_).symm
  · nlinarith
  · nlinarith

/-! ### Occurrence-counter evaluations -/

theorem weeklyInnerCount : countOccurrencesBetween
    { amount := 0, startDate := some 4490, endDate := none, repeatN := 2,
      period := some CategoryRulePeriod.Week } 4490 5843 = 97 := by
  rw [countOccurrencesBetween.eq_def]
  norm_num [periodCount]

/-- C7: the weekly rule anchored 2012-04-17 with `repeatN = 2` fires 14
times in [2016-01-01, 2016-07-18], and 15 times in each of
[2016-01-01, 2016-07-19] and [2016-01-01, 2016-07-20]. -/
theorem weeklyRule_occurrence_counts :
    countOccurrencesBetween exampleWeeklyRule (triplet_to_days_value 2016 0 1)
        (triplet_to_days_value 2016 6 18) = 14
    ∧ countOccurrencesBetween exampleWeeklyRule (triplet_to_days_value 2016 0 1)
        (triplet_to_days_value 2016 6 19) = 15
    ∧ countOccurrencesBetween exampleWeeklyRule (triplet_to_days_value 2016 0 1)
        (triplet_to_days_value 2016 6 20) = 15 := by
  refine ⟨?_, ?_, ?_⟩ <;>
    · rw [countOccurrencesBetween.eq_def]
      norm_num [exampleWeeklyRule, periodCount, triplet_to_days_value, daysToYearStart,
        monthSum, PDate.isLeapYear, weeklyInnerCount]

/-- C9: `countOccurrencesBetween` is total on every window with
`dateBegin ≤ dateEnd`: with fuel for a single nested call (fuel 2) the
fuel-indexed variant — which also checks the source's entry assertion
`dateEnd ≥ dateBegin` at every call — completes and agrees with the
recursive function, so the recursion is at most one level deep and the
nested call's precondition always holds. -/
theorem countOccurrences_total_depth_le_one (rule : CategoryRule) (a b : Nat) (hab : a ≤ b) :
    countOccurrencesFuel 2 rule a b = some (countOccurrencesBetween rule a b) := by
  rw [countOccurrencesBetween.eq_def]
  unfold countOccurrencesFuel
  simp only [if_neg (by omega : ¬ b < a)]
  by_cases h1 : (match rule.startDate with | some s => decide (b < s) | none => false) = true
  · simp [h1]
  · simp only [h1, Bool.false_eq_true, if_false]
    by_cases h2 : (match rule.endDate with | some e => decide (e < a) | none => false) = true
    · simp [h2]
    · simp only [h2, Bool.false_eq_true, if_false]
      cases hp : rule.period with
      | none => rfl
      | some p =>
        by_cases hrec : rule.startDate.getD a < a
        · simp only [hrec, if_pos, dif_pos]
          cases hs : rule.startDate with
          | none => simp [hs] at hrec
          | some s =>
            simp only [hs, Option.getD_some] at hrec ⊢
            rw [countOccurrencesBetween.eq_def]
            unfold countOccurrencesFuel
            simp only [if_neg (by omega : ¬ a - 1 < s),
              if_neg (by simp [hs]; omega :
                ¬ (match rule.startDate with | some s => decide (a - 1 < s) | none => false) = true)]
            by_cases h3 : (match rule.endDate with | some e => decide (e < s) | none => false) = true
            · simp [h3]
            · simp [h3, hs, hp]
        · simp only [hrec, dif_neg, if_neg, if_false]
          rfl

/-- Closed witness for C9 at a concrete rule and window. -/
theorem countOccurrences_total_depth_le_one_witness :
    5844 ≤ 6043
    ∧ countOccurrencesFuel 2 exampleWeeklyRule 5844 6043
        = some (countOccurrencesBetween exampleWeeklyRule 5844 6043) :=
  ⟨by norm_num, countOccurrences_total_depth_le_one exampleWeeklyRule 5844 6043 (by norm_num)⟩

/-! ### Anti-monotonicity in the skip factor (C8) -/

/-- `monthsTerm f` is monotone in its second argument. -/
theorem monthsTerm_mono (f : Nat) {x y : Nat} (h : x ≤ y) :
    monthsTerm f x ≤ monthsTerm f y := by
  have hk := yearMonthKey_mono h
  unfold monthsTerm
  rcases eq_or_lt_of_le hk with heq | hlt
  · have hmx := month_le_11 x
    have hmy := month_le_11 y
    have hyx : PDate.year x = PDate.year y := by omega
    have hmxy : PDate.month x = PDate.month y := by omega
    rw [hyx, hmxy]
    have hday := day_mono_same h hyx hmxy
    split_ifs with h1 h2 h2 <;> omega
  · have hmx := month_le_11 x
    have hmy := month_le_11 y
    split_ifs with h1 h2 h2 <;> omega

/-- On a well-ordered window (`firstDay ≤ lastDay`) the Month arm's `months`
value is at least 1. -/
theorem monthsTerm_pos {f l : Nat} (h : f ≤ l) : 1 ≤ monthsTerm f l := by
  have hmono := monthsTerm_mono f h
  have hself : monthsTerm f f = 1 := by
    unfold monthsTerm
    simp
  omega

/-- A single period count with skip factor `n ≥ 1` never exceeds the count
with skip factor 1, provided the window is well ordered. -/
theorem periodCount_le_one (p : CategoryRulePeriod) {n : Nat} (hn : 1 ≤ n) {f l : Nat}
    (hfl : f ≤ l) : periodCount p n f l ≤ periodCount p 1 f l := by
  cases p with
  | Day =>
    unfold periodCount
    have h0 : (0:Int) ≤ max 0 ((l : Int) - (f : Int)) := le_max_left 0 _
    have := Int.ediv_le_self (n : Int) h0
    simp only [Nat.cast_one, Int.ediv_one]
    omega
  | Week =>
    simp only [periodCount, Nat.cast_one, one_mul]
    have h0 : (0:Int) ≤ max 0 ((l : Int) - (f : Int)) := le_max_left 0 _
    rw [mul_comm ((n : Int)) 7]
    rw [← ediv_ediv_comp _ (by omega : (1:Int) ≤ 7) (by exact_mod_cast hn)]
    have h7 : (0:Int) ≤ max 0 ((l : Int) - (f : Int)) / 7 :=
      Int.ediv_nonneg h0 (by omega)
    have := Int.ediv_le_self (n : Int) h7
    omega
  | Month =>
    unfold periodCount
    have hM := monthsTerm_pos hfl
    have : monthsTerm f l - 1 ≥ 0 := by omega
    have := Int.ediv_le_self (n : Int) this
    simp only [Nat.cast_one, Int.ediv_one]
    omega
  | Year =>
    exact le_refl _

/-- Differences of period counts over nested windows shrink (weakly) as the
skip factor grows: the quantity the recursive anchoring step of
`countOccurrencesBetween` computes is anti-monotone in `repeatN`. -/
theorem periodCount_sub_le (p : CategoryRulePeriod) {n : Nat} (hn : 1 ≤ n) {f l2 l : Nat}
    (h2 : l2 ≤ l) :
    periodCount p n f l - periodCount p n f l2 ≤ periodCount p 1 f l - periodCount p 1 f l2 := by
  have hncast : (1:Int) ≤ (n : Int) := by exact_mod_cast hn
  cases p with
  | Day =>
    unfold periodCount
    have hmax : max 0 ((l2 : Int) - (f : Int)) ≤ max 0 ((l : Int) - (f : Int)) := by
      apply max_le_max (le_refl 0)
      have : (l2 : Int) ≤ l := by exact_mod_cast h2
      omega
    have := ediv_sub_ediv_le (x := max 0 ((l : Int) - (f : Int)))
      (y := max 0 ((l2 : Int) - (f : Int))) (n : Int) hncast hmax
    simp only [Nat.cast_one, Int.ediv_one]
    omega
  | Week =>
    simp only [periodCount, Nat.cast_one, one_mul]
    have hmax : max 0 ((l2 : Int) - (f : Int)) ≤ max 0 ((l : Int) - (f : Int)) := by
      apply max_le_max (le_refl 0)
      have : (l2 : Int) ≤ l := by exact_mod_cast h2
      omega
    rw [mul_comm ((n : Int)) 7]
    rw [← ediv_ediv_comp _ (by omega : (1:Int) ≤ 7) hncast,
      ← ediv_ediv_comp _ (by omega : (1:Int) ≤ 7) hncast]
    have hdivmono := Int.ediv_le_ediv (by omega : (0:Int) < 7) hmax
    have := ediv_sub_ediv_le (x := max 0 ((l : Int) - (f : Int)) / 7)
      (y := max 0 ((l2 : Int) - (f : Int)) / 7) (n : Int) hncast hdivmono
    omega
  | Month =>
    unfold periodCount
    have hmono := monthsTerm_mono f h2
    have := ediv_sub_ediv_le (x := monthsTerm f l - 1) (y := monthsTerm f l2 - 1)
      (n : Int) hncast (by omega)
    simp only [Nat.cast_one, Int.ediv_one]
    omega
  | Year =>
    exact le_refl _

/-- C8 (amended): anti-monotonicity in the skip factor holds for every rule
whose `startDate`, when both it and `endDate` are non-null, does not exceed
`endDate`.  For every such pair of dates, every non-null period, every
`n ≥ 1`, and every window `a ≤ b`, the occurrence count of the rule with
`repeatN = n` is at most the count of the otherwise-identical rule with
`repeatN = 1`.  (Without the `startDate ≤ endDate` restriction the original
claim is false: see the counterexample.) -/
theorem countOccurrences_repeatN_antitone
    (amt : Int) (sd ed : Option Nat) (p : CategoryRulePeriod) (n a b : Nat)
    (hn : 1 ≤ n) (hab : a ≤ b)
    (hse : ∀ s e, sd = some s → ed = some e → s ≤ e) :
    countOccurrencesBetween ⟨amt, sd, ed, n, some p⟩ a b
      ≤ countOccurrencesBetween ⟨amt, sd, ed, 1, some p⟩ a b := by
  conv_lhs => rw [countOccurrencesBetween.eq_def]
  conv_rhs => rw [countOccurrencesBetween.eq_def]
  cases sd with
  | none =>
    dsimp only
    simp only [Bool.false_eq_true, if_false, Option.getD_none, lt_irrefl, dite_false]
    cases ed with
    | none =>
      exact periodCount_le_one p hn hab
    | some e =>
      by_cases he : e < a
      · simp [he]
      · simp only [decide_eq_true_eq, if_neg he]
        have haL : a ≤ (if e < b then e else b) := by split_ifs <;> omega
        exact periodCount_le_one p hn haL
  | some s =>
    dsimp only
    by_cases h1 : b < s
    · simp [h1]
    · simp only [decide_eq_true_eq, if_neg h1, Option.getD_some]
      cases ed with
      | none =>
        simp only [Bool.false_eq_true, if_false]
        by_cases hrec : s < a
        · simp only [dif_pos hrec]
          conv_lhs => rw [countOccurrencesBetween.eq_def]
          conv_rhs => rw [countOccurrencesBetween.eq_def]
          dsimp only
          simp only [decide_eq_true_eq, if_neg (by omega : ¬ a - 1 < s),
            Bool.false_eq_true, if_false, Option.getD_some, dif_neg (lt_irrefl s)]
          exact periodCount_sub_le p hn (by omega)
        · simp only [dif_neg hrec]
          exact periodCount_le_one p hn (by omega)
      | some e =>
        have hsle : s ≤ e := hse s e rfl rfl
        by_cases h2 : e < a
        · simp [h2]
        · simp only [decide_eq_true_eq, if_neg h2]
          by_cases hrec : s < a
          · simp only [dif_pos hrec]
            conv_lhs => rw [countOccurrencesBetween.eq_def]
            conv_rhs => rw [countOccurrencesBetween.eq_def]
            dsimp only
            simp only [decide_eq_true_eq, if_neg (by omega : ¬ a - 1 < s),
              if_neg (by omega : ¬ e < s), Option.getD_some, dif_neg (lt_irrefl s)]
            have hLL : (if e < a - 1 then e else a - 1) ≤ (if e < b then e else b) := by
              split_ifs <;> omega
            exact periodCount_sub_le p hn hLL
          · simp only [dif_neg hrec]
            have hsL : s ≤ (if e < b then e else b) := by split_ifs <;> omega
            exact periodCount_le_one p hn hsL

/-- Closed witness for C8: the amended statement applied to the weekly rule
anchored 2012-04-17 with skip factor 2 over the window 2016-01-01..2016-07-18. -/
theorem countOccurrences_repeatN_antitone_witness :
    1 ≤ 2 ∧ 5844 ≤ 6043
    ∧ countOccurrencesBetween ⟨0, some 4490, none, 2, some .Week⟩ 5844 6043
        ≤ countOccurrencesBetween ⟨0, some 4490, none, 1, some .Week⟩ 5844 6043 :=
  ⟨by decide, by decide,
    countOccurrences_repeatN_antitone 0 (some 4490) none .Week 2 5844 6043 (by decide)
      (by decide) (by intro s e _ h; cases h)⟩

/-- Counterexample to the original C8: the Month rule with
`startDate = 2016-06-15` (6010) and `endDate = 2016-01-20` (5863) — dates
reversed, which no mutator forbids — on the window
2016-01-10..2016-12-31 (5853..6209, so `a ≤ b` and `n = 2 ≥ 1`) yields
count −2 with `repeatN = 2` but −4 with `repeatN = 1`, violating
`count(n) ≤ count(1)`. -/
theorem countOccurrences_repeatN_antitone_counterexample :
    (5853 : Nat) ≤ 6209 ∧ (1 : Nat) ≤ 2
    ∧ ¬ countOccurrencesBetween ⟨0, some 6010, some 5863, 2, some .Month⟩ 5853 6209
        ≤ countOccurrencesBetween ⟨0, some 6010, some 5863, 1, some .Month⟩ 5853 6209 := by
  have hy1 : PDate.year 6010 = 2016 := by decide
  have hy2 : PDate.year 5863 = 2016 := by decide
  have hm1 : PDate.month 6010 = 5 := by decide
  have hm2 : PDate.month 5863 = 0 := by decide
  have hd1 : PDate.day 6010 = 15 := by decide
  have hd2 : PDate.day 5863 = 20 := by decide
  have hmt : monthsTerm 6010 5863 = -4 := by
    unfold monthsTerm
    rw [hy1, hy2, hm1, hm2, hd1, hd2]
    norm_num
  have h2 : countOccurrencesBetween ⟨0, some 6010, some 5863, 2, some .Month⟩ 5853 6209
      = -2 := by
    rw [countOccurrencesBetween.eq_def]
    dsimp only
    simp only [decide_eq_true_eq, if_neg (by omega : ¬ (6209:Nat) < 6010),
      if_neg (by omega : ¬ (5863:Nat) < 5853), Option.getD_some,
      dif_neg (by omega : ¬ (6010:Nat) < 5853),
      if_pos (by omega : (5863:Nat) < 6209)]
    unfold periodCount
    rw [hmt]
    decide
  have h1 : countOccurrencesBetween ⟨0, some 6010, some 5863, 1, some .Month⟩ 5853 6209
      = -4 := by
    rw [countOccurrencesBetween.eq_def]
    dsimp only
    simp only [decide_eq_true_eq, if_neg (by omega : ¬ (6209:Nat) < 6010),
      if_neg (by omega : ¬ (5863:Nat) < 5853), Option.getD_some,
      dif_neg (by omega : ¬ (6010:Nat) < 5853),
      if_pos (by omega : (5863:Nat) < 6209)]
    unfold periodCount
    rw [hmt]
    decide
  refine ⟨by omega, by omega, ?_⟩
  rw [h1, h2]
  decide


/-! ### The command layer at its failing inputs -/

/-- C1 (code bug): the undo law fails on the code.  For the valid state
`exUndoState` (categories `[Cat A, Cat B]`, both in group 1) and the
recognized command `exUndoCommand` (`UPDATE_CATEGORY` moving `Cat A` to
group 2, no `index`), applying the command and then its synthesized inverse
yields `exUndoResult`, whose categories iterate `[Cat B, Cat A]` — not the
original state: the inverse restores `groupId` but re-inserts the category
at the end of its group, losing its position. -/
theorem undoLaw_roundTrip_fails :
    undoRoundTrip exUndoState exUndoCommand = some exUndoResult
    ∧ exUndoResult ≠ exUndoState := by
  constructor
  · decide
  · decide

/-- C2 (code bug): the dual-ordering invariant is not maintained by
`positionCategoryGroup`.  On `exGroupsState` (groups `[1, 2]`, categories
`[Cat in G1, Cat in G2]`, correctly grouped) the mutator
`positionCategoryGroup(2, 0)` succeeds and returns `exGroupsResult`, whose
group order is `[2, 1]` while the categories map still iterates
`[Cat in G1, Cat in G2]` — a category of the now-later group 1 precedes the
category of the now-earlier group 2. -/
theorem ordering_positionCategoryGroup_breaks_grouping :
    Budget.positionCategoryGroup exGroupsState 2 0 = .ok exGroupsResult
    ∧ categoriesGroupedByGroupOrder exGroupsState
    ∧ ¬ categoriesGroupedByGroupOrder exGroupsResult := by
  refine ⟨rfl, ?_, ?_⟩ <;>
    · unfold categoriesGroupedByGroupOrder
      decide

/-- C3 (code bug): inverting a `DELETE_*` of a record absent from the state
does not produce a NOOP command record.  The inner switch returns the raw
`NOOP` action-type string; the post-processing then evaluates
`result.type` (undefined) and assigns to `result.type` on a string
primitive, which throws `TypeError` in the strict-mode bundle — so no
command record carrying `budgetId = state.id` is ever returned. -/
theorem inverter_deleteMissing_throws :
    inverter exEmptyBudget (.deleteAccount 42 none) = .error .typeError
    ∧ inverter exEmptyBudget (.deleteCategory 42 none) = .error .typeError
    ∧ inverter exEmptyBudget (.deleteCategoryGroup 42 none) = .error .typeError
    ∧ inverter exEmptyBudget (.deleteTransaction 42 none) = .error .typeError := by
  refine ⟨rfl, rfl, rfl, rfl⟩

/-! ### Repositioning bounds and deletes of absent ids -/

theorem map_eq_self_of {l : List α} {f : α → α} (h : ∀ x ∈ l, f x = x) : l.map f = l := by
  induction l with
  | nil => rfl
  | cons x xs ih =>
    simp only [List.map_cons, h x (by simp)]
    rw [ih (fun y hy => h y (by simp [hy]))]

theorem mapDelete_absent {key : α → Option Nat} {l : List α} {id : Nat}
    (h : l.find? (fun x => key x == some id) = none) : mapDelete key l id = l := by
  apply List.filter_eq_self.mpr
  intro x hx
  have := List.find?_eq_none.mp h x hx
  simp at this ⊢
  exact this

/-- C4 (amended): `positionCategory` with `newIndex` outside
`[0, group size]` raises `InvariantViolation`, and the attempted change is
discarded (the mutator returns no new budget).  `positionAccount` and
`positionCategoryGroup` perform no such bounds check — see the
counterexample below. -/
theorem positionCategory_outOfBounds_raises (b : Budget) (categoryId : Nat) (newIndex : Int)
    (category : Category)
    (hfound : mapGet Category.id b.categories categoryId = some category)
    (hoob : newIndex < 0
      ∨ ((b.categories.filter (fun c => c.groupId == category.groupId)).length : Int) < newIndex) :
    b.positionCategory categoryId newIndex = .error .invariantViolation := by
  unfold Budget.positionCategory
  rw [hfound]
  have hcond : (!decide (0 ≤ newIndex
      ∧ newIndex ≤ ((b.categories.filter (fun c => c.groupId == category.groupId)).length : Int)))
      = true := by
    simp only [Bool.not_eq_true', decide_eq_false_iff_not]
    omega
  simp only [hcond, if_true]

/-- Closed witness for the amended C4: the group of category 7 in
`exBudget` has one member, and repositioning to index 5 throws. -/
theorem positionCategory_outOfBounds_raises_witness :
    Budget.positionCategory exBudget 7 5 = .error .invariantViolation :=
  positionCategory_outOfBounds_raises exBudget 7 5
    { id := some 7, name := "Groceries", rules := none, notes := "",
      currencyCode := "USD", groupId := some 10 } rfl (by decide)

/-- Counterexample to C4 as stated: `positionAccount` with an out-of-range
index (5, on a 2-account list) succeeds — the insert clamps to the end —
and `positionCategoryGroup` with index 7 on a 2-group list succeeds,
returning the budget unchanged.  Neither raises. -/
theorem reposition_outOfBounds_counterexample :
    Budget.positionAccount exAccountsState 1 5 = .ok exAccountsMoved
    ∧ Budget.positionCategoryGroup exGroupsState 2 7 = .ok exGroupsState :=
  ⟨rfl, rfl⟩

/-- C10: deleting by an absent id is the identity.  For every budget that
passes its own invariant check and every id not present in the respective
collection, `deleteTransaction`, `deleteAccount` and `deleteCategory`
return the budget unchanged and throw nothing (the transaction/detail
rewrites touch nothing because a checked budget has no reference to an
absent id). -/
theorem delete_absent_id_identity (b : Budget) (id : Nat) (hvalid : budgetCheckOk b = true) :
    (mapGet Transaction.id b.transactions id = none → b.deleteTransaction id = .ok b)
    ∧ (mapGet Account.id b.accounts id = none → b.deleteAccount id = .ok b)
    ∧ (mapGet Category.id b.categories id = none → b.deleteCategory id = .ok b) := by
  have hok : checkBudget b = .ok b := by unfold checkBudget; rw [if_pos hvalid]
  have hv := hvalid
  simp only [budgetCheckOk, Bool.and_eq_true, List.all_eq_true] at hv
  obtain ⟨⟨⟨hcur, hdates⟩, hcats⟩, htxns⟩ := hv
  refine ⟨?_, ?_, ?_⟩
  · intro habs
    unfold Budget.deleteTransaction
    rw [mapDelete_absent habs]
    exact hok
  · intro habs
    unfold Budget.deleteAccount
    rw [mapDelete_absent habs]
    have hmap : b.transactions.map (fun t =>
        if t.accountId == some id then { t with accountId := none } else t) = b.transactions := by
      apply map_eq_self_of
      intro t ht
      have herr := htxns t ht
      simp only [transactionErrorFree, Bool.and_eq_true] at herr
      have hid : (t.accountId == some id) = false := by
        cases hacc : t.accountId with
        | none => simp
        | some aid =>
          rcases herr with ⟨h1, _⟩
          simp only [hacc] at h1
          rw [beq_eq_false_iff_ne]
          intro hcontra
          injection hcontra with h2
          rw [h2, habs] at h1
          simp at h1
      simp [hid]
    rw [hmap]
    exact hok
  · intro habs
    unfold Budget.deleteCategory
    rw [mapDelete_absent habs]
    have hmap : b.transactions.map (fun t =>
        { t with detail := t.detail.map (fun d =>
            if d.categoryId == some id then { d with categoryId := none } else d) })
        = b.transactions := by
      apply map_eq_self_of
      intro t ht
      have herr := htxns t ht
      simp only [transactionErrorFree, Bool.and_eq_true, List.all_eq_true] at herr
      have hdet : t.detail.map (fun d =>
          if d.categoryId == some id then { d with categoryId := none } else d) = t.detail := by
        apply map_eq_self_of
        intro d hd
        have hderr := herr.2 d hd
        have hid : (d.categoryId == some id) = false := by
          cases hcid : d.categoryId with
          | none => simp
          | some cid =>
            simp only [hcid] at hderr
            rw [beq_eq_false_iff_ne]
            intro hcontra
            injection hcontra with h2
            rw [h2, habs] at hderr
            simp at hderr
        simp [hid]
      rw [hdet]
    rw [hmap]
    exact hok

/-- Closed witness for C10 on `exBudget` and the absent id 99. -/
theorem delete_absent_id_identity_witness :
    exBudget.deleteTransaction 99 = .ok exBudget
    ∧ exBudget.deleteAccount 99 = .ok exBudget
    ∧ exBudget.deleteCategory 99 = .ok exBudget :=
  ⟨(delete_absent_id_identity exBudget 99 (by decide)).1 rfl,
   (delete_absent_id_identity exBudget 99 (by decide)).2.1 rfl,
   (delete_absent_id_identity exBudget 99 (by decide)).2.2 rfl⟩


/-! ### Balance derivations -/

theorem objGet_objSet_same [BEq κ] [LawfulBEq κ] (m : List (κ × ν)) (k : κ) (v : ν) :
    objGet (objSet m k v) k = some v := by
  unfold objGet objSet
  by_cases hany : m.any (fun p => p.1 == k)
  · rw [if_pos hany]
    induction m with
    | nil => simp at hany
    | cons p ps ih =>
      by_cases hp : (p.1 == k) = true
      · simp [List.find?, hp]
      · have hp' : (p.1 == k) = false := by simpa using hp
        have hany' : ps.any (fun p => p.1 == k) = true := by
          simp only [List.any_cons, Bool.or_eq_true] at hany
          rcases hany with h | h
          · rw [hp'] at h; exact absurd h (by simp)
          · exact h
        simp only [List.map_cons, hp', Bool.false_eq_true, if_false, List.find?]
        exact ih hany'
  · rw [if_neg hany]
    induction m with
    | nil => simp [List.find?]
    | cons p ps ih =>
      simp only [List.any_cons, Bool.or_eq_true, not_or] at hany
      have hp' : (p.1 == k) = false := by simpa using hany.1
      simp only [List.cons_append, List.find?, hp']
      exact ih (by simp [hany.2])

theorem objGet_objSet_other [BEq κ] [LawfulBEq κ] (m : List (κ × ν)) {k k2 : κ} (v : ν)
    (h : (k == k2) = false) : objGet (objSet m k v) k2 = objGet m k2 := by
  unfold objGet objSet
  by_cases hany : m.any (fun p => p.1 == k)
  · rw [if_pos hany]
    clear hany
    induction m with
    | nil => simp
    | cons p ps ih =>
      by_cases hp : (p.1 == k) = true
      · have hpk2 : (p.1 == k2) = false := by
          rw [beq_iff_eq] at hp
          rw [hp]
          exact h
        simp only [List.map_cons, hp, if_true, List.find?, h, hpk2]
        exact ih
      · have hp' : (p.1 == k) = false := by simpa using hp
        simp only [List.map_cons, hp', Bool.false_eq_true, if_false, List.find?]
        by_cases hpk2 : (p.1 == k2) = true
        · simp [hpk2]
        · have hpk2' : (p.1 == k2) = false := by simpa using hpk2
          simp only [hpk2']
          exact ih
  · rw [if_neg hany]
    induction m with
    | nil =>
      simp [List.find?, h]
    | cons p ps ih =>
      simp only [List.any_cons, Bool.or_eq_true, not_or] at hany
      simp only [List.cons_append, List.find?]
      by_cases hpk2 : (p.1 == k2) = true
      · simp [hpk2]
      · have hpk2' : (p.1 == k2) = false := by simpa using hpk2
        simp only [hpk2']
        exact ih (by simp [hany.2])



theorem balance_fold_lookup (aid : Nat) :
    ∀ (ts : List Transaction) (acc : List (Option Nat × Option Int))
      (tb : List (Nat × Option Int)) (v : Int),
      objGet acc (some aid) = some (some v) →
      objGet ((ts.foldl balanceStep (acc, tb)).1) (some aid)
        = some (some (v + ((ts.filter (fun t => !t.pending && t.accountId == some aid)).map
            Transaction.amount).sum)) := by
  intro ts
  induction ts with
  | nil =>
    intro acc tb v hv
    simpa using hv
  | cons t ts ih =>
    intro acc tb v hv
    simp only [List.foldl_cons]
    by_cases hskip : (t.pending || t.accountId == none) = true
    · have hstep : balanceStep (acc, tb) t = (acc, tb) := by
        unfold balanceStep; rw [if_pos hskip]
      rw [hstep]
      have hcond : (!t.pending && t.accountId == some aid) = false := by
        rcases Bool.or_eq_true_iff.mp hskip with hp | hn
        · simp [hp]
        · rw [beq_iff_eq] at hn
          simp [hn]
      rw [List.filter_cons, hcond]
      simp only [Bool.false_eq_true, if_false]
      exact ih acc tb v hv
    · have hskip' : (t.pending || t.accountId == none) = false := by simpa using hskip
      have hpend : t.pending = false := by
        rcases Bool.or_eq_false_iff.mp hskip' with ⟨h1, _⟩
        exact h1
      have hsome : (t.accountId == none) = false := by
        rcases Bool.or_eq_false_iff.mp hskip' with ⟨_, h2⟩
        exact h2
      cases hacc : t.accountId with
      | none => rw [hacc] at hsome; simp at hsome
      | some k =>
        have hstep : balanceStep (acc, tb) t =
            (objSet acc (some k) (match objGet acc (some k) with
              | some (some w) => some (w + t.amount)
              | _ => none),
             match t.id with
             | some tid => tb ++ [(tid, match objGet acc (some k) with
                 | some (some w) => some (w + t.amount)
                 | _ => none)]
             | none => tb) := by
          unfold balanceStep
          rw [if_neg (by simp [hskip']), hacc]
        rw [hstep]
        by_cases hk : k = aid
        · subst hk
          rw [hv]
          have hcond : (!t.pending && t.accountId == some k) = true := by
            simp [hpend, hacc]
          rw [List.filter_cons, hcond]
          simp only [if_true, List.map_cons, List.sum_cons]
          have hv' : objGet (objSet acc (some k) (some (v + t.amount))) (some k)
              = some (some (v + t.amount)) := objGet_objSet_same _ _ _
          rw [ih _ _ (v + t.amount) hv']
          congr 2
          ring
        · have hcond : (!t.pending && t.accountId == some aid) = false := by
            simp [hacc, hk]
          rw [List.filter_cons, hcond]
          simp only [Bool.false_eq_true, if_false]
          have hv' : objGet (objSet acc (some k) (match objGet acc (some k) with
              | some (some w) => some (w + t.amount)
              | _ => none)) (some aid) = some (some v) := by
            rw [objGet_objSet_other _ _ (by simp [hk]), hv]
          exact ih _ _ v hv'

theorem init_balance_lookup (accounts : List Account) (acct : Account) (aid : Nat)
    (hnodup : (accounts.map Account.id).Nodup) (hmem : acct ∈ accounts)
    (hid : acct.id = some aid) :
    objGet (accounts.map (fun a => (a.id, some a.initialBalance))) (some aid)
      = some (some acct.initialBalance) := by
  induction accounts with
  | nil => cases hmem
  | cons a as ih =>
    rcases List.mem_cons.mp hmem with heq | htail
    · subst heq
      unfold objGet
      simp [List.find?, hid]
    · simp only [List.map_cons, List.nodup_cons] at hnodup
      have hane : (a.id == some aid) = false := by
        rw [beq_eq_false_iff_ne]
        intro hcontra
        apply hnodup.1
        rw [hcontra, ← hid]
        exact List.mem_map_of_mem Account.id htail
      unfold objGet
      simp only [List.map_cons, List.find?, hane]
      exact ih hnodup.2 htail



/-- C5: for every budget (with the ordered map's key uniqueness made
explicit), `accountBalances` maps each account id to the account's
`initialBalance` plus the sum of the total amounts (sums of detail
amounts) of every non-pending transaction carrying that `accountId`;
pending transactions and transactions with a null `accountId` are skipped
by the walk and so contribute to no account's balance. -/
theorem accountBalances_spec (b : Budget) (acct : Account) (aid : Nat)
    (hnodup : (b.accounts.map Account.id).Nodup)
    (hmem : acct ∈ b.accounts) (hid : acct.id = some aid) :
    objGet b.accountBalances (some aid)
      = some (some (acct.initialBalance
          + ((b.transactions.filter (fun t => !t.pending && t.accountId == some aid)).map
              Transaction.amount).sum)) := by
  unfold Budget.accountBalances Budget._computeBalances
  exact balance_fold_lookup aid b.transactions _ _ acct.initialBalance
    (init_balance_lookup b.accounts acct aid hnodup hmem hid)

/-- Closed witness for C5 on `exBudget`: 100 initial, one posted -30, one
pending -99 on account 1. -/
theorem accountBalances_spec_witness :
    objGet exBudget.accountBalances (some 1) = some (some 70) := by
  have h := accountBalances_spec exBudget
    { id := some 1, name := "Cash", initialBalance := 100, currencyCode := "USD" } 1
    (by decide) (by decide) rfl
  rw [h]
  decide



theorem addDetail_fold_lookup (cid : Nat) :
    ∀ (ds : List TransactionDetail) (m : List (Nat × Int)),
      (objGet (ds.foldl addDetail m) cid).getD 0
        = (objGet m cid).getD 0 + ((ds.filter (fun d => d.categoryId == some cid)).map
            (fun d => d.amount)).sum := by
  intro ds
  induction ds with
  | nil =>
    intro m
    simp
  | cons d ds ih =>
    intro m
    simp only [List.foldl_cons]
    cases hcat : d.categoryId with
    | none =>
      have hstep : addDetail m d = m := by unfold addDetail; rw [hcat]
      have hcond : (d.categoryId == some cid) = false := by rw [hcat]; rfl
      rw [hstep, List.filter_cons, hcond]
      simp only [Bool.false_eq_true, if_false]
      exact ih m
    | some c =>
      by_cases hc : c = cid
      · subst hc
        have hstep : addDetail m d = objSet m c ((objGet m c).getD 0 + d.amount) := by
          unfold addDetail; rw [hcat]
        have hcond : (d.categoryId == some c) = true := by rw [hcat]; exact beq_self_eq_true _
        rw [hstep, List.filter_cons, hcond]
        simp only [if_true, List.map_cons, List.sum_cons]
        rw [ih, objGet_objSet_same]
        simp only [Option.getD_some]
        ring
      · have hstep : addDetail m d = objSet m c ((objGet m c).getD 0 + d.amount) := by
          unfold addDetail; rw [hcat]
        have hcond : (d.categoryId == some cid) = false := by
          rw [hcat, beq_eq_false_iff_ne]
          simp [hc]
        rw [hstep, List.filter_cons, hcond]
        simp only [Bool.false_eq_true, if_false]
        rw [ih, objGet_objSet_other _ _ (by simp [hc])]

theorem catLoop_lookup (date cid : Nat) (hdate : date < nullDateSortKey) :
    ∀ (ts : List Transaction) (m : List (Nat × Int)),
      (ts.map Budget.transactionSorter).Pairwise (· ≤ ·) →
      (objGet (categoryBalancesLoop date ts m) cid).getD 0
        = (objGet m cid).getD 0
          + ((ts.filter (fun t => match t.date with
                | some v => decide (v ≤ date) | none => false)).map
              (fun t => ((t.detail.filter (fun d => d.categoryId == some cid)).map
                (fun d => d.amount)).sum)).sum := by
  have hnds : nullDateSortKey = 999999 := rfl
  intro ts
  induction ts with
  | nil =>
    intro m _
    simp [categoryBalancesLoop]
  | cons t ts ih =>
    intro m hsorted
    rw [List.map_cons, List.pairwise_cons] at hsorted
    obtain ⟨hhead, htail⟩ := hsorted
    have htailkeys : ∀ t2 ∈ ts, Budget.transactionSorter t ≤ Budget.transactionSorter t2 := by
      intro t2 ht2
      exact hhead _ (List.mem_map_of_mem Budget.transactionSorter ht2)
    have hrest0 : Budget.transactionSorter t > date →
        ts.filter (fun t => match t.date with
          | some v => decide (v ≤ date) | none => false) = [] := by
      intro hgt
      apply List.filter_eq_nil_iff.mpr
      intro t2 ht2
      have hle := htailkeys t2 ht2
      cases hd2 : t2.date with
      | none => simp
      | some v2 =>
        have hkv2 : Budget.transactionSorter t2 = v2 := by
          unfold Budget.transactionSorter; rw [hd2]
        simp only [decide_eq_true_eq]
        omega
    cases hd : t.date with
    | none =>
      have hkey : Budget.transactionSorter t = nullDateSortKey := by
        unfold Budget.transactionSorter; rw [hd]
      have hloop : categoryBalancesLoop date (t :: ts) m = m := by
        unfold categoryBalancesLoop; simp only [hd]
      have hcond : (match t.date with
          | some v => decide (v ≤ date) | none => false) = false := by rw [hd]
      rw [hloop, List.filter_cons, hcond]
      simp only [Bool.false_eq_true, if_false]
      rw [hrest0 (by omega)]
      simp
    | some dv =>
      have hkey : Budget.transactionSorter t = dv := by
        unfold Budget.transactionSorter; rw [hd]
      by_cases hbreak : date < dv
      · have hloop : categoryBalancesLoop date (t :: ts) m = m := by
          unfold categoryBalancesLoop
          simp only [hd]
          rw [if_pos hbreak]
        have hcond : (match t.date with
            | some v => decide (v ≤ date) | none => false) = false := by
          rw [hd]
          simp only [decide_eq_false_iff_not]
          omega
        rw [hloop, List.filter_cons, hcond]
        simp only [Bool.false_eq_true, if_false]
        rw [hrest0 (by omega)]
        simp
      · have hloop : categoryBalancesLoop date (t :: ts) m
            = categoryBalancesLoop date ts (t.detail.foldl addDetail m) := by
          conv_lhs => unfold categoryBalancesLoop
          simp only [hd, if_neg hbreak]
        have hcond : (match t.date with
            | some v => decide (v ≤ date) | none => false) = true := by
          rw [hd]
          simp only [decide_eq_true_eq]
          omega
        rw [hloop, List.filter_cons, hcond]
        simp only [if_true, List.map_cons, List.sum_cons]
        rw [ih _ htail, addDetail_fold_lookup]
        ring



/-- C6: on a budget whose transactions satisfy the chronological-order
invariant (and whose `endDate` is a legal `PDate` value), every successful
`categoryBalancesOnDate(date)` call sums, over every transaction with a
non-null date `≤ date` — pending or not — each detail's amount into the
bucket of the detail's category, skipping null-category details;
transactions with a null date or a later date contribute nothing (the
loop's `break` is exhaustive because the map is sorted). -/
theorem categoryBalancesOnDate_spec (b : Budget) (date cid : Nat) (m : List (Nat × Int))
    (hchron : transactionsChronological b)
    (hrange : b.endDate ≤ 365615)
    (hok : b.categoryBalancesOnDate date = .ok m) :
    (objGet m cid).getD 0
      = ((b.transactions.filter (fun t => match t.date with
            | some v => decide (v ≤ date) | none => false)).map
          (fun t => ((t.detail.filter (fun d => d.categoryId == some cid)).map
            (fun d => d.amount)).sum)).sum := by
  unfold Budget.categoryBalancesOnDate at hok
  by_cases hcondition : b.startDate ≤ date ∧ date ≤ b.endDate
  · rw [if_pos hcondition] at hok
    have hm : m = categoryBalancesLoop date b.transactions [] := by
      cases hok
      rfl
    subst hm
    have hdate : date < nullDateSortKey := by
      have : nullDateSortKey = 999999 := rfl
      omega
    have hpair : (b.transactions.map Budget.transactionSorter).Pairwise (· ≤ ·) := hchron
    have h := catLoop_lookup date cid hdate b.transactions [] hpair
    rw [h]
    simp [objGet]
  · rw [if_neg hcondition] at hok
    cases hok

/-- Closed witness for C6 on `exBudget` at 5855: only the posted -30
transaction is dated ≤ 5855, giving category 7 balance -30. -/
theorem categoryBalancesOnDate_spec_witness :
    (objGet (categoryBalancesLoop 5855 exBudget.transactions []) 7).getD 0 = -30 := by
  have h := categoryBalancesOnDate_spec exBudget 5855 7
    (categoryBalancesLoop 5855 exBudget.transactions [])
    (by unfold transactionsChronological; decide) (by decide) rfl
  rw [h]
  decide

end Prophecy
